import Mathlib

/-!
Shallow embedding of the media extraction and download pipeline implemented by
`DownloadThread.run` in `script.pyw`, together with the semantics of the
library helpers it relies on: `urllib.parse.urlsplit` / `urljoin`
(modelled for the URL schemes the program handles), `os.path.basename` and
`os.path.splitext` on URL path segments, Python `dict` insertion-order
update semantics, substring containment (`pat in s`), and Python string
truthiness for attribute lookups.
-/

namespace Pinterest

/-- Python substring containment `pat in s`, as infixity of character lists. -/
def containsSub (s pat : String) : Bool := decide (pat.data <:+: s.data)

/-- The two media kinds the script distinguishes (the strings
`'image'` / `'video'` in the source). -/
inductive MediaType where
  | image
  | video
  deriving DecidableEq

/-- The literal string the source uses for each media kind. -/
def MediaType.str : MediaType → String
  | .image => "image"
  | .video => "video"

/-- JSON values, as produced by `json.loads`. -/
inductive Json where
  | null
  | bool (b : Bool)
  | num (n : Int)
  | str (s : String)
  | arr (xs : List Json)
  | obj (fields : List (String × Json))

/-- Python truthiness of a JSON value (`if data.get('contentUrl'):`). -/
def Json.truthy : Json → Bool
  | .null => false
  | .bool b => b
  | .num n => n != 0
  | .str s => s != ""
  | .arr xs => !xs.isEmpty
  | .obj fs => !fs.isEmpty

/-- `dict.get` on a parsed JSON object; `json.loads` keeps the last
occurrence of a duplicated key, hence the reverse search. -/
def objGet (fields : List (String × Json)) (k : String) : Option Json :=
  (fields.reverse.find? (fun f => f.1 == k)).map (·.2)

/-! A parsed HTML element: tag name, attributes, children in document order,
and the text content (`element.string`) for leaf elements such as scripts.
The children sit in the companion type `ElementList` (a copy of `List`),
so that the traversal below is mutual structural recursion. -/
mutual
inductive Element where
  | mk (tag : String) (attrs : List (String × String)) (children : ElementList)
      (text : Option String)
inductive ElementList where
  | nil
  | cons (e : Element) (rest : ElementList)
end

/-- Build an `ElementList` from a `List`. -/
def ElementList.ofList : List Element → ElementList
  | [] => .nil
  | e :: rest => .cons e (ofList rest)

def Element.tag : Element → String
  | .mk t _ _ _ => t

def Element.attrs : Element → List (String × String)
  | .mk _ a _ _ => a

def Element.children : Element → ElementList
  | .mk _ _ c _ => c

def Element.textContent : Element → Option String
  | .mk _ _ _ s => s

/-- `element.get(key)`: the attribute value, if the attribute is present. -/
def Element.get (e : Element) (k : String) : Option String :=
  (e.attrs.find? (fun a => a.1 == k)).map (·.2)

/-! Pre-order (document-order) traversal: each element followed by its
descendants, the order in which BeautifulSoup's `find_all` reports them. -/
mutual
def elemDesc : Element → List Element
  | .mk t a cs s => .mk t a cs s :: elemListDesc cs
def elemListDesc : ElementList → List Element
  | .nil => []
  | .cons e rest => elemDesc e ++ elemListDesc rest
end

/-- All elements of the parsed document in document order. -/
def descendantsList (doc : ElementList) : List Element :=
  elemListDesc doc

/-- `str.lower()` (ASCII case folding, character by character). -/
def lowerStr (s : String) : String := String.mk (s.data.map Char.toLower)

/-- `s.split(c)` for a one-character separator, Python semantics. -/
def splitCharAux (c : Char) : List Char → List Char → List String
  | [], acc => [String.mk acc.reverse]
  | d :: rest, acc =>
    if d == c then String.mk acc.reverse :: splitCharAux c rest []
    else splitCharAux c rest (d :: acc)

def splitChar (s : String) (c : Char) : List String := splitCharAux c s.data []

/-- `soup.find_all(tag)`. -/
def findAll (doc : ElementList) (t : String) : List Element :=
  (descendantsList doc).filter (fun e => e.tag == t)

/-- `soup.find_all(tag, \x7bkey: value\x7d)` / `soup.find_all(tag, type=value)`. -/
def findAllAttr (doc : ElementList) (t k v : String) : List Element :=
  (descendantsList doc).filter (fun e => e.tag == t && e.get k == some v)

/-- `element.find(tag)`: first matching descendant in document order. -/
def Element.findTag (e : Element) (t : String) : Option Element :=
  (descendantsList e.children).find? (fun c => c.tag == t)

/-- Python `a or b` on optional strings: `None` and `''` are falsy. -/
def orStr (a b : Option String) : Option String :=
  match a with
  | some s => if s = "" then b else some s
  | none => b

/-! ### `urllib.parse`: `urlsplit`, `urlunsplit`, `urljoin`

Modelled from the CPython implementation, restricted to the generic URL
syntax (the `params` component, which only matters for paths containing
`;`, is folded into the path). -/

structure UrlParts where
  scheme : String
  netloc : String
  path : String
  query : String
  fragment : String
  deriving DecidableEq

/-- Characters allowed in a URL scheme after the leading letter. -/
def schemeChar (c : Char) : Bool := c.isAlphanum || c == '+' || c == '-' || c == '.'

/-- Split a string at the first occurrence of a character, if present. -/
def splitFirst (s : String) (c : Char) : Option (String × String) :=
  match s.data.findIdx? (fun d => d == c) with
  | none => none
  | some i => some (String.mk (s.data.take i), String.mk (s.data.drop (i + 1)))

/-- Scheme detection of `urlsplit`: `url[:i]` before the first `:` when it is
a wellformed scheme, lowercased; the remainder otherwise the whole URL. -/
def splitScheme (url : String) : String × String :=
  match splitFirst url ':' with
  | some (pre, post) =>
    if pre ≠ "" ∧ pre.data.head?.all Char.isAlpha ∧ pre.data.all schemeChar then
      (lowerStr pre, post)
    else ("", url)
  | none => ("", url)

/-- Netloc detection of `urlsplit`: after a leading `//`, up to the next
`/`, `?` or `#`. -/
def splitNetloc (rest : String) : String × String :=
  if rest.take 2 = "//" then
    let after := (rest.drop 2).data
    (String.mk (after.takeWhile (fun c => c != '/' && c != '?' && c != '#')),
     String.mk (after.dropWhile (fun c => c != '/' && c != '?' && c != '#')))
  else ("", rest)

/-- Fragment split: `(before, after)` the first `#`. -/
def splitFragment (rest : String) : String × String :=
  match splitFirst rest '#' with
  | some (a, b) => (a, b)
  | none => (rest, "")

/-- Query split: `(before, after)` the first `?`. -/
def splitQuery (rest : String) : String × String :=
  match splitFirst rest '?' with
  | some (a, b) => (a, b)
  | none => (rest, "")

def urlsplit (url : String) : UrlParts :=
  let sr := splitScheme url
  let nr := splitNetloc sr.2
  let fr := splitFragment nr.2
  let qr := splitQuery fr.1
  ⟨sr.1, nr.1, qr.1, qr.2, fr.2⟩

/-- The netloc/path assembly step of `urlunsplit`. -/
def unsplitPathNetloc (p : UrlParts) : String :=
  if p.netloc ≠ "" ∨ p.path.take 2 = "//" then
    "//" ++ p.netloc ++ (if p.path ≠ "" ∧ p.path.take 1 ≠ "/" then "/" ++ p.path else p.path)
  else p.path

def withScheme (p : UrlParts) (u : String) : String :=
  if p.scheme ≠ "" then p.scheme ++ ":" ++ u else u

def withQuery (p : UrlParts) (u : String) : String :=
  if p.query ≠ "" then u ++ "?" ++ p.query else u

def withFragment (p : UrlParts) (u : String) : String :=
  if p.fragment ≠ "" then u ++ "#" ++ p.fragment else u

def urlunsplit (p : UrlParts) : String :=
  withFragment p (withQuery p (withScheme p (unsplitPathNetloc p)))

/-- `urllib.parse.uses_relative`. -/
def usesRelative : List String :=
  ["", "ftp", "http", "gopher", "nntp", "imap", "wais", "file", "https", "shttp",
   "mms", "prospero", "rtsp", "rtspu", "sftp", "svn", "svn+ssh", "ws", "wss"]

/-- `urllib.parse.uses_netloc`. -/
def usesNetloc : List String :=
  ["", "ftp", "http", "gopher", "nntp", "telnet", "imap", "wais", "file", "mms",
   "https", "shttp", "snews", "prospero", "rtsp", "rtspu", "rsync", "svn",
   "svn+ssh", "sftp", "nfs", "ws", "wss"]

/-- `segments[1:-1] = filter(None, segments[1:-1])`, applied to the tail of the
segment list: drop empty segments but always keep the final one. -/
def keepLastFilter : List String → List String
  | [] => []
  | [a] => [a]
  | a :: rest => if a = "" then keepLastFilter rest else a :: keepLastFilter rest

/-- The dot-segment resolution loop of `urljoin`. -/
def resolveSegs (acc : List String) : List String → List String
  | [] => acc
  | seg :: rest =>
    if seg = ".." then resolveSegs acc.dropLast rest
    else if seg = "." then resolveSegs acc rest
    else resolveSegs (acc ++ [seg]) rest

/-- The segment list `urljoin` resolves: the relative path's own segments
when it is path-absolute, otherwise the base directory's segments followed
by the relative segments with interior empties dropped. -/
def mergedSegments (b u : UrlParts) : List String :=
  if u.path.take 1 = "/" then splitChar u.path '/'
  else
    let bp := splitChar b.path '/'
    let baseParts := if bp.getLastD "" ≠ "" then bp.dropLast else bp
    match baseParts ++ splitChar u.path '/' with
    | [] => []
    | a :: rest => a :: keepLastFilter rest

/-- The resolved path of `urljoin`'s relative-path case. -/
def mergedPath (b u : UrlParts) : String :=
  let segments := mergedSegments b u
  let resolved := resolveSegs [] segments
  let resolved :=
    if segments.getLastD "" = "." ∨ segments.getLastD "" = ".." then resolved ++ [""]
    else resolved
  let path := String.intercalate "/" resolved
  if path = "" then "/" else path

/-- The tail of `urljoin` once the scheme has been fixed and found relative. -/
def urljoinResolve (b u : UrlParts) (scheme : String) : String :=
  if scheme ∈ usesNetloc ∧ u.netloc ≠ "" then
    urlunsplit ⟨scheme, u.netloc, u.path, u.query, u.fragment⟩
  else
    if u.path = "" then
      urlunsplit ⟨scheme, if scheme ∈ usesNetloc then b.netloc else u.netloc, b.path,
        if u.query = "" then b.query else u.query, u.fragment⟩
    else
      urlunsplit ⟨scheme, if scheme ∈ usesNetloc then b.netloc else u.netloc,
        mergedPath b u, u.query, u.fragment⟩

def urljoin (base url : String) : String :=
  if base = "" then url
  else if url = "" then base
  else
    let b := urlsplit base
    let u := urlsplit url
    let scheme := if u.scheme = "" then b.scheme else u.scheme
    if scheme ≠ b.scheme ∨ scheme ∉ usesRelative then url
    else urljoinResolve b u scheme

/-! ### The four extraction strategies of `DownloadThread.run` -/

/-- The image extension list of strategy 1 (also the accepted image set in
filename derivation). -/
def imageExts : List String := [".jpg", ".jpeg", ".png", ".webp", ".gif"]

/-- The video extension list of strategies 2 and 4 (also the accepted video
set in filename derivation). -/
def videoExts : List String := [".mp4", ".webm", ".mov"]

/-- `any(ext in img_url.lower() for ext in ['.jpg', '.jpeg', '.png', '.webp', '.gif'])`. -/
def imgAccept (url : String) : Bool :=
  imageExts.any (fun ext => containsSub (lowerStr url) ext)

/-- `any(ext in video_url.lower() for ext in ['.mp4', '.webm', '.mov'])`. -/
def videoAccept (url : String) : Bool :=
  videoExts.any (fun ext => containsSub (lowerStr url) ext)

/-- The per-element body of strategy 1: emit the image candidate when the
attribute value is truthy and passes the extension filter. -/
def imgCandidate (pageUrl : String) : Option String → Option (MediaType × String)
  | some u => if u ≠ "" ∧ imgAccept u then some (MediaType.image, urljoin pageUrl u) else none
  | none => none

/-- Strategy 1: `<img>` tags, `src` with fallback to `data-src`. -/
def extractImgs (doc : ElementList) (pageUrl : String) : List (MediaType × String) :=
  (findAll doc "img").filterMap (fun img =>
    imgCandidate pageUrl (orStr (img.get "src") (img.get "data-src")))

/-- The per-element body of strategy 2. -/
def videoCandidate (pageUrl : String) : Option String → Option (MediaType × String)
  | some u => if u ≠ "" ∧ videoAccept u then some (MediaType.video, urljoin pageUrl u) else none
  | none => none

/-- Strategy 2: `<video>` tags, `src` with fallback to the first nested
`<source>` element's `src`. -/
def extractVideos (doc : ElementList) (pageUrl : String) : List (MediaType × String) :=
  (findAll doc "video").filterMap (fun video =>
    videoCandidate pageUrl (orStr (video.get "src")
      (match video.findTag "source" with
       | some srcEl => srcEl.get "src"
       | none => none)))

/-- The per-element body of strategy 3: no extension filter, only truthiness. -/
def divCandidate (pageUrl : String) : Option String → Option (MediaType × String)
  | some u => if u ≠ "" then some (MediaType.video, urljoin pageUrl u) else none
  | none => none

/-- Strategy 3: `<div data-test-id="video-component">` with a
`data-video-src` attribute. -/
def extractVideoDivs (doc : ElementList) (pageUrl : String) : List (MediaType × String) :=
  (findAllAttr doc "div" "data-test-id" "video-component").filterMap (fun d =>
    divCandidate pageUrl (d.get "data-video-src"))

/-- The classification of strategy 4:
`'video' if any(ext in url.lower() for ext in ['.mp4', '.webm', '.mov']) else 'image'`. -/
def classifyUrl (u : String) : MediaType :=
  if videoAccept u then .video else .image

/-- Strategy 4, per script element: parse the text as JSON; on an object with
a truthy `contentUrl` emit one candidate, the URL taken verbatim. A parse
failure, a non-object result, or a non-string `contentUrl` (whose `.lower()`
raises inside the guarded block) is silently skipped. -/
def extractLdJsonOne (jsonLoads : String → Option Json) (script : Element) :
    List (MediaType × String) :=
  match script.textContent with
  | none => []
  | some t =>
    match jsonLoads t with
    | none => []
    | some (.obj fields) =>
      match objGet fields "contentUrl" with
      | some v =>
        if v.truthy then
          match v with
          | .str u => [(classifyUrl u, u)]
          | _ => []
        else []
      | none => []
    | some _ => []

/-- Strategy 4 over the whole document:
`<script type="application/ld+json">` elements. -/
def extractLdJson (jsonLoads : String → Option Json) (doc : ElementList) :
    List (MediaType × String) :=
  (findAllAttr doc "script" "type" "application/ld+json").flatMap (extractLdJsonOne jsonLoads)

/-- `media_elements`: the four strategies run in their fixed order. -/
def extract (jsonLoads : String → Option Json) (doc : ElementList) (pageUrl : String) :
    List (MediaType × String) :=
  extractImgs doc pageUrl ++ extractVideos doc pageUrl ++ extractVideoDivs doc pageUrl
    ++ extractLdJson jsonLoads doc

/-! ### Deduplication -/

/-- `url.split('?')[0]`: the prefix of the URL before the first `?`. -/
def canon (u : String) : String :=
  String.mk (u.data.takeWhile (fun c => c != '?'))

/-- One entry of the `unique_media` dict: key and stored value
`(media_type, clean_url)`. -/
abbrev Entry := String × MediaType × String

/-- One assignment `unique_media[clean_url] = (media_type, clean_url)` with
Python dict semantics: an existing key keeps its position and gets the new
value, a fresh key is appended. -/
def upd (m : List Entry) (c : MediaType × String) : List Entry :=
  let k := canon c.2
  if m.any (fun e => e.1 == k) then
    m.map (fun e => if e.1 == k then (k, c.1, k) else e)
  else m ++ [(k, c.1, k)]

/-- The dict built by the dedup loop. -/
def dedupeDict (cs : List (MediaType × String)) : List Entry :=
  cs.foldl upd []

/-- `media_list = list(unique_media.values())`. -/
def dedupe (cs : List (MediaType × String)) : List (MediaType × String) :=
  (dedupeDict cs).map (·.2)

/-! ### Filename derivation and collision resolution -/

/-- `os.path.basename` on a URL path: the part after the last `/`. -/
def basename (p : String) : String :=
  String.mk ((p.data.reverse.takeWhile (fun c => c != '/')).reverse)

/-- `os.path.splitext` on a path-free filename: split before the last `.`,
except that a leading run of dots carries no extension. -/
def splitext (s : String) : String × String :=
  match s.data.reverse.findIdx? (fun c => c == '.') with
  | none => (s, "")
  | some r =>
    let i := s.data.length - 1 - r
    if (s.data.take i).all (fun c => c == '.') then (s, "")
    else (String.mk (s.data.take i), String.mk (s.data.drop i))

/-- `'.mp4' if media_type == 'video' else '.jpg'`. -/
def defaultExt : MediaType → String
  | .video => ".mp4"
  | .image => ".jpg"

/-- Filename derivation for item `i` (0-based, as `enumerate` yields it). -/
def deriveFilename (mediaType : MediaType) (i : Nat) (mediaUrl : String) : String :=
  let filename := basename (urlsplit mediaUrl).path
  if filename = "" ∨ '.' ∉ filename.data then
    mediaType.str ++ "_" ++ Nat.repr (i + 1) ++ defaultExt mediaType
  else
    let currentExt := lowerStr (splitext filename).2
    if mediaType = .video ∧ currentExt ∉ videoExts then
      (splitext filename).1 ++ ".mp4"
    else if mediaType = .image ∧ currentExt ∉ imageExts then
      (splitext filename).1 ++ ".jpg"
    else filename

/-- The `k`-th probed filename: the filename itself, then
`f"\x7bname\x7d_\x7bcounter\x7d\x7bext\x7d"` for `counter = 1, 2, ...`. -/
def probe (filename : String) (k : Nat) : String :=
  if k = 0 then filename
  else (splitext filename).1 ++ "_" ++ Nat.repr k ++ (splitext filename).2

/-- The `while os.path.exists(filepath):` probe loop. The fuel
`fs.length + 1` given below never runs out: the probes are pairwise
distinct (proved later), so a free one is found among the first
`fs.length + 1`, exactly as in the unbounded source loop. -/
def resolveAux (fs : List String) (filename : String) : Nat → Nat → String
  | k, 0 => probe filename k
  | k, fuel + 1 =>
    if probe filename k ∈ fs then resolveAux fs filename (k + 1) fuel
    else probe filename k

/-- Collision resolution against the set `fs` of files already present in the
save folder (paths relative to the constant save folder). -/
def resolveCollision (fs : List String) (filename : String) : String :=
  resolveAux fs filename 0 (fs.length + 1)

/-! ### The download loop and the surrounding pipeline -/

/-- State threaded through the per-item loop: files present in the save
folder, log lines emitted, and the `(index, url)` download attempts issued. -/
structure LoopState where
  fs : List String
  log : List String
  attempts : List (Nat × String)

def successLine (t : MediaType) (filename : String) (i total : Nat) : String :=
  "✅ Downloaded " ++ t.str ++ ": " ++ filename ++ " (" ++ Nat.repr (i + 1) ++ "/"
    ++ Nat.repr total ++ ")"

def failLine (u msg : String) : String :=
  "❌ Failed to download " ++ u ++ ": " ++ msg

/-- One iteration of the download loop. `env i u` is the outcome of the
network-and-disk transfer for item `i` at URL `u`: `.ok` writes the resolved
path, `.error` raises before the file is created; either way the `try` body
was entered (an attempt is recorded) and the loop continues. -/
def dlStep (env : Nat → String → Except String Unit) (total : Nat) (st : LoopState) :
    Nat × MediaType × String → LoopState
  | (i, t, u) =>
    let filename := deriveFilename t i u
    let filepath := resolveCollision st.fs filename
    match env i u with
    | .ok _ =>
      ⟨st.fs ++ [filepath], st.log ++ [successLine t filename i total],
        st.attempts ++ [(i, u)]⟩
    | .error e =>
      ⟨st.fs, st.log ++ [failLine u e], st.attempts ++ [(i, u)]⟩

/-- `for i, (media_type, media_url) in enumerate(media_list):` with the
per-item `try` / `except` isolation. -/
def downloadLoop (env : Nat → String → Except String Unit)
    (items : List (MediaType × String)) (fs0 : List String) : LoopState :=
  items.enum.foldl (dlStep env items.length) ⟨fs0, [], []⟩

def accessLine (url : String) : String := "Accessing Pinterest URL: " ++ url

def fetchFailLine : String := "❌ Failed to retrieve the Pinterest page."

def noMediaLine : String := "❌ No media found on this Pinterest page."

def doneLine : String := "🎉 All downloads completed!"

def foundLine (total nImg nVid : Nat) : String :=
  "Found " ++ Nat.repr total ++ " media items (" ++ Nat.repr nImg ++ " images, "
    ++ Nat.repr nVid ++ " videos). Starting download..."

/-- The kind of the last candidate in extraction order whose canonical URL
is `k` (the kind that survives the dict overwrites). -/
def lastKind (cs : List (MediaType × String)) (k : String) : Option MediaType :=
  (cs.reverse.find? (fun c => canon c.2 == k)).map (·.1)

/-- The accepted extension set per kind used by filename derivation. -/
def acceptedExts : MediaType → List String
  | .video => videoExts
  | .image => imageExts

/-- The result of one run: the ordered log and the download attempts made. -/
structure RunResult where
  log : List String
  attempts : List (Nat × String)

/-- `DownloadThread.run`, after the page fetch returned `status` with the
parsed body `doc`. -/
def runPipeline (jsonLoads : String → Option Json) (env : Nat → String → Except String Unit)
    (pageUrl : String) (status : Nat) (doc : ElementList) (fs0 : List String) : RunResult :=
  let log0 := [accessLine pageUrl]
  if status ≠ 200 then ⟨log0 ++ [fetchFailLine], []⟩
  else
    let mediaList := dedupe (extract jsonLoads doc pageUrl)
    if mediaList = [] then ⟨log0 ++ [noMediaLine], []⟩
    else
      let nImg := (mediaList.filter (fun c => c.1 == MediaType.image)).length
      let nVid := (mediaList.filter (fun c => c.1 == MediaType.video)).length
      let res := downloadLoop env mediaList fs0
      ⟨log0 ++ [foundLine mediaList.length nImg nVid] ++ res.log ++ [doneLine], res.attempts⟩

/-! ## Injectivity of `Nat.repr`

The probe counter is rendered with `Nat.repr`; distinctness of the probed
filenames rests on `Nat.repr` being injective. -/

lemma toDigitsCore_append (b fuel n : Nat) (ds : List Char) :
    Nat.toDigitsCore b fuel n ds = Nat.toDigitsCore b fuel n [] ++ ds := by
  induction fuel generalizing n ds with
  | zero => simp [Nat.toDigitsCore]
  | succ f ih =>
    simp only [Nat.toDigitsCore]
    by_cases h : n / b = 0
    · simp [h]
    · simp only [h, if_false, if_neg h]
      rw [ih (n / b), ih (n / b) [Nat.digitChar (n % b)], List.append_assoc]
      rfl

lemma toDigitsCore_fuel (b : Nat) (hb : 2 ≤ b) :
    ∀ fuel₁ fuel₂ n ds, n < fuel₁ → n < fuel₂ →
      Nat.toDigitsCore b fuel₁ n ds = Nat.toDigitsCore b fuel₂ n ds := by
  intro fuel₁
  induction fuel₁ with
  | zero => intro fuel₂ n ds h1; omega
  | succ f ih =>
    intro fuel₂ n ds h1 h2
    match fuel₂, h2 with
    | g + 1, h2 =>
      simp only [Nat.toDigitsCore]
      by_cases h : n / b = 0
      · simp [h]
      · simp only [h, if_neg h]
        have hn : 0 < n := by
          rcases Nat.eq_zero_or_pos n with h0 | h0
          · exact absurd (by simp [h0]) h
          · exact h0
        have hdiv : n / b < n := Nat.div_lt_self hn (by omega)
        exact ih g (n / b) _ (by omega) (by omega)

lemma toDigits_ne_nil (b n : Nat) : Nat.toDigits b n ≠ [] := by
  unfold Nat.toDigits
  simp only [Nat.toDigitsCore]
  by_cases h : n / b = 0
  · simp [h]
  · simp only [h, if_neg h]
    rw [toDigitsCore_append]
    simp

lemma toDigits_step (b : Nat) (hb : 2 ≤ b) (n : Nat) :
    Nat.toDigits b n =
      (if n / b = 0 then [] else Nat.toDigits b (n / b)) ++ [Nat.digitChar (n % b)] := by
  by_cases h : n / b = 0
  · simp only [h, if_pos]
    unfold Nat.toDigits
    simp [Nat.toDigitsCore, h]
  · simp only [h, if_neg h]
    unfold Nat.toDigits
    conv_lhs => simp only [Nat.toDigitsCore]
    simp only [h, if_neg h]
    have hn : 0 < n := by
      rcases Nat.eq_zero_or_pos n with h0 | h0
      · exact absurd (by simp [h0]) h
      · exact h0
    have hdiv : n / b < n := Nat.div_lt_self hn (by omega)
    rw [toDigitsCore_append, toDigitsCore_fuel b hb n (n / b + 1) (n / b) [] (by omega) (by omega)]
    simp

lemma digitChar_inj_lt10 : ∀ a < 10, ∀ c < 10, Nat.digitChar a = Nat.digitChar c → a = c := by
  decide

lemma toDigits_ten_inj : ∀ m n : Nat, Nat.toDigits 10 m = Nat.toDigits 10 n → m = n := by
  intro m
  induction m using Nat.strong_induction_on with
  | _ m ih =>
    intro n h
    rw [toDigits_step 10 (by omega) m, toDigits_step 10 (by omega) n] at h
    have h' := List.append_inj' h (by simp)
    have hmod : m % 10 = n % 10 := by
      have := h'.2
      simp only [List.cons.injEq] at this
      exact digitChar_inj_lt10 _ (Nat.mod_lt _ (by omega)) _ (Nat.mod_lt _ (by omega)) this.1
    have hpre := h'.1
    by_cases hm : m / 10 = 0
    · by_cases hn : n / 10 = 0
      · omega
      · rw [if_pos hm, if_neg hn] at hpre
        exact absurd hpre.symm (toDigits_ne_nil 10 (n / 10))
    · by_cases hn : n / 10 = 0
      · rw [if_neg hm, if_pos hn] at hpre
        exact absurd hpre (toDigits_ne_nil 10 (m / 10))
      · rw [if_neg hm, if_neg hn] at hpre
        have hmpos : 0 < m := by
          rcases Nat.eq_zero_or_pos m with h0 | h0
          · exact absurd (by simp [h0]) hm
          · exact h0
        have := ih (m / 10) (Nat.div_lt_self hmpos (by omega)) (n / 10) hpre
        omega

lemma natRepr_inj {m n : Nat} (h : Nat.repr m = Nat.repr n) : m = n := by
  unfold Nat.repr at h
  have : Nat.toDigits 10 m = Nat.toDigits 10 n := by
    have := congrArg String.data h
    simpa [List.asString] using this
  exact toDigits_ten_inj m n this

/-! ## Collision probing -/

lemma strMk_append (a b : List Char) : String.mk a ++ String.mk b = String.mk (a ++ b) := rfl

lemma strMk_data (s : String) : String.mk s.data = s := rfl

lemma splitext_append (s : String) : (splitext s).1 ++ (splitext s).2 = s := by
  unfold splitext
  cases h : s.data.reverse.findIdx? (fun c => c == '.') with
  | none =>
    show s ++ "" = s
    exact congrArg String.mk (List.append_nil s.data)
  | some r =>
    by_cases hall : (s.data.take (s.data.length - 1 - r)).all (fun c => c == '.')
    · simp only [hall, if_pos]
      show s ++ "" = s
      exact congrArg String.mk (List.append_nil s.data)
    · simp only [hall, if_neg, Bool.not_eq_true]
      rw [strMk_append, List.take_append_drop]

lemma reprLen_pos (k : Nat) : 0 < (Nat.repr k).length := by
  show 0 < (Nat.repr k).data.length
  unfold Nat.repr
  have h := toDigits_ne_nil 10 k
  cases hd : Nat.toDigits 10 k with
  | nil => exact absurd hd h
  | cons c cs => simp [List.asString, hd]

lemma splitext_length (f : String) :
    (splitext f).1.length + (splitext f).2.length = f.length := by
  have h := congrArg String.length (splitext_append f)
  simpa [String.length_append] using h

lemma probe_injective (f : String) : Function.Injective (probe f) := by
  intro i j h
  unfold probe at h
  by_cases hi : i = 0 <;> by_cases hj : j = 0
  · omega
  · rw [if_pos hi, if_neg hj] at h
    have hl := congrArg String.length h
    have hsp := splitext_length f
    have hr := reprLen_pos j
    simp only [String.length_append] at hl
    have : ("_" : String).length = 1 := rfl
    omega
  · rw [if_neg hi, if_pos hj] at h
    have hl := congrArg String.length h
    have hsp := splitext_length f
    have hr := reprLen_pos i
    simp only [String.length_append] at hl
    have : ("_" : String).length = 1 := rfl
    omega
  · rw [if_neg hi, if_neg hj] at h
    have hd := congrArg String.data h
    simp only [String.data_append, List.append_assoc] at hd
    have hd2 := (List.append_right_inj _).mp ((List.append_right_inj _).mp hd)
    have hd3 := (List.append_left_inj _).mp hd2
    have : Nat.repr i = Nat.repr j := by
      have := congrArg String.mk hd3
      simpa [strMk_data] using this
    exact natRepr_inj this

lemma resolveAux_eq (fs : List String) (f : String) (m : Nat)
    (hfree : probe f m ∉ fs) :
    ∀ fuel k, k ≤ m → m - k ≤ fuel → (∀ j, k ≤ j → j < m → probe f j ∈ fs) →
      resolveAux fs f k fuel = probe f m := by
  intro fuel
  induction fuel with
  | zero =>
    intro k hk hmk _
    have : k = m := by omega
    subst this
    rfl
  | succ fuel ih =>
    intro k hk hmk hall
    simp only [resolveAux]
    by_cases hmem : probe f k ∈ fs
    · rw [if_pos hmem]
      have hkm : k ≠ m := fun e => hfree (e ▸ hmem)
      exact ih (k + 1) (by omega) (by omega) (fun j h1 h2 => hall j (by omega) h2)
    · rw [if_neg hmem]
      have : k = m := by
        by_contra hne
        exact hmem (hall k (le_refl k) (by omega))
      rw [this]

/-- The probe loop returns the first free name: if the probes below `m` are
all taken and probe `m` is free, the result is probe `m`. The fuel suffices
by pigeonhole, the probes being pairwise distinct. -/
lemma resolveCollision_eq_probe (fs : List String) (f : String) (m : Nat)
    (hin : ∀ k, k < m → probe f k ∈ fs) (hfree : probe f m ∉ fs) :
    resolveCollision fs f = probe f m := by
  have hm : m ≤ fs.length := by
    have hnd : ((List.range m).map (probe f)).Nodup :=
      (List.nodup_range m).map (probe_injective f)
    have hsub : (List.range m).map (probe f) ⊆ fs := by
      intro x hx
      rcases List.mem_map.mp hx with ⟨k, hk, rfl⟩
      exact hin k (List.mem_range.mp hk)
    have := (List.subperm_of_subset hnd hsub).length_le
    simpa using this
  exact resolveAux_eq fs f m hfree (fs.length + 1) 0 (by omega) (by omega)
    (fun j _ h2 => hin j h2)

/-! ## Deduplication lemmas -/

lemma dedupeDict_append (cs : List (MediaType × String)) (c : MediaType × String) :
    dedupeDict (cs ++ [c]) = upd (dedupeDict cs) c := by
  simp [dedupeDict, List.foldl_append]

lemma lastKind_append (cs : List (MediaType × String)) (c : MediaType × String) (k : String) :
    lastKind (cs ++ [c]) k = if canon c.2 == k then some c.1 else lastKind cs k := by
  unfold lastKind
  rw [List.reverse_append]
  cases h : canon c.2 == k with
  | true => simp [List.find?_cons_of_pos, h]
  | false => simp [List.find?_cons_of_neg, h]

lemma mem_upd_self (m : List Entry) (c : MediaType × String) :
    (canon c.2, c.1, canon c.2) ∈ upd m c := by
  unfold upd
  by_cases ha : (m.any (fun e => e.1 == canon c.2)) = true
  · rw [if_pos ha]
    rcases List.any_eq_true.mp ha with ⟨e, he, hek⟩
    exact List.mem_map.mpr ⟨e, he, by simp [hek]⟩
  · rw [if_neg ha]
    exact List.mem_append_right _ (by simp)

lemma mem_upd_of_mem (m : List Entry) (c : MediaType × String) (e : Entry)
    (he : e ∈ m) (hk : (e.1 == canon c.2) = false) : e ∈ upd m c := by
  unfold upd
  by_cases ha : (m.any (fun x => x.1 == canon c.2)) = true
  · rw [if_pos ha]
    exact List.mem_map.mpr ⟨e, he, by simp [hk]⟩
  · rw [if_neg ha]
    exact List.mem_append_left _ he

lemma lastKind_mem_dict (cs : List (MediaType × String)) :
    ∀ k, k ∈ cs.map (fun c => canon c.2) →
      ∃ t, lastKind cs k = some t ∧ (k, t, k) ∈ dedupeDict cs := by
  induction cs using List.reverseRecOn with
  | nil => intro k hk; simp at hk
  | append_singleton cs c ih =>
    intro k hk
    rw [dedupeDict_append, lastKind_append]
    cases hck : canon c.2 == k with
    | true =>
      have hck' : canon c.2 = k := eq_of_beq hck
      refine ⟨c.1, by simp, ?_⟩
      rw [← hck']
      exact mem_upd_self _ c
    | false =>
      have hk' : k ∈ cs.map (fun c => canon c.2) := by
        rw [List.map_append] at hk
        rcases List.mem_append.mp hk with h | h
        · exact h
        · simp only [List.map_cons, List.map_nil, List.mem_singleton] at h
          rw [h] at hck
          simp at hck
      rcases ih k hk' with ⟨t, hlk, hmem⟩
      refine ⟨t, by simp [hck, hlk], mem_upd_of_mem _ c _ hmem ?_⟩
      simp only [beq_eq_false_iff_ne, ne_eq] at hck ⊢
      exact fun e => hck e.symm

lemma upd_val_key {m : List Entry} (h : ∀ e ∈ m, e.2.2 = e.1) (c : MediaType × String) :
    ∀ e ∈ upd m c, e.2.2 = e.1 := by
  intro e he
  unfold upd at he
  by_cases ha : (m.any (fun x => x.1 == canon c.2)) = true
  · rw [if_pos ha] at he
    rcases List.mem_map.mp he with ⟨x, hx, rfl⟩
    cases hxk : x.1 == canon c.2 with
    | true => simp [hxk]
    | false => simpa [hxk] using h x hx
  · rw [if_neg ha] at he
    rcases List.mem_append.mp he with hx | hx
    · exact h e hx
    · simp only [List.mem_singleton] at hx
      rw [hx]

lemma dict_val_key (cs : List (MediaType × String)) :
    ∀ e ∈ dedupeDict cs, e.2.2 = e.1 := by
  induction cs using List.reverseRecOn with
  | nil => intro e he; simp [dedupeDict] at he
  | append_singleton cs c ih =>
    rw [dedupeDict_append]
    exact upd_val_key ih c

lemma keys_upd_nodup {m : List Entry} (h : (m.map (·.1)).Nodup) (c : MediaType × String) :
    ((upd m c).map (·.1)).Nodup := by
  unfold upd
  by_cases ha : (m.any (fun x => x.1 == canon c.2)) = true
  · rw [if_pos ha, List.map_map]
    have heq : m.map ((·.1) ∘ (fun e => if e.1 == canon c.2 then (canon c.2, c.1, canon c.2) else e))
        = m.map (·.1) := by
      apply List.map_congr_left
      intro x hx
      cases hxk : x.1 == canon c.2 with
      | true => simp [eq_of_beq hxk]
      | false =>
        have hne : ¬ x.1 = canon c.2 := by simpa using hxk
        simp [hne]
    rw [heq]
    exact h
  · rw [if_neg ha, List.map_append]
    simp only [List.map_cons, List.map_nil]
    refine List.Nodup.append h (List.nodup_singleton _) ?_
    intro x hx1 hx2
    simp only [List.mem_singleton] at hx2
    rcases List.mem_map.mp hx1 with ⟨e, he, rfl⟩
    exact ha (List.any_eq_true.mpr ⟨e, he, by simp [hx2]⟩)

lemma dict_keys_nodup (cs : List (MediaType × String)) :
    ((dedupeDict cs).map (·.1)).Nodup := by
  induction cs using List.reverseRecOn with
  | nil => simp [dedupeDict]
  | append_singleton cs c ih =>
    rw [dedupeDict_append]
    exact keys_upd_nodup ih c

/-! ## Claim theorems -/

/-- C1: deduplication keys each candidate by its canonical URL (the URL
truncated at the first `?`); for all candidates sharing a canonical URL
exactly one `MediaItem` survives, and its kind is the kind of the last such
candidate in extraction order (last-write-wins). -/
theorem dedupe_last_write_wins (cs : List (MediaType × String)) (k : String)
    (hk : k ∈ cs.map (fun c => canon c.2)) :
    ((dedupe cs).filter (fun it => it.2 == k)).length = 1 ∧
    ∀ it ∈ dedupe cs, it.2 = k → lastKind cs k = some it.1 := by
  rcases lastKind_mem_dict cs k hk with ⟨t, hlk, hmem⟩
  have hnd := dict_keys_nodup cs
  have hvk := dict_val_key cs
  have hkeys : k ∈ (dedupeDict cs).map (·.1) := List.mem_map.mpr ⟨(k, t, k), hmem, rfl⟩
  have hfe : (dedupe cs).filter (fun it => it.2 == k)
      = ((dedupeDict cs).filter (fun e => e.1 == k)).map (·.2) := by
    unfold dedupe
    rw [List.filter_map]
    congr 1
    apply List.filter_congr
    intro e he
    show (e.2.2 == k) = (e.1 == k)
    rw [hvk e he]
  have hlen : ((dedupeDict cs).filter (fun e => e.1 == k)).length = 1 := by
    rw [← List.countP_eq_length_filter]
    have hcp : List.countP (fun x => x == k) ((dedupeDict cs).map (·.1))
        = List.countP (fun e => e.1 == k) (dedupeDict cs) := List.countP_map _ _ _
    rw [← hcp]
    have := List.count_eq_one_of_mem hnd hkeys
    simpa [List.count] using this
  constructor
  · rw [hfe, List.length_map]
    exact hlen
  · intro it hit hitk
    rcases List.mem_map.mp hit with ⟨e, he, rfl⟩
    have he1 : e.1 = k := by rw [← hvk e he, hitk]
    rcases List.length_eq_one.mp hlen with ⟨x, hx⟩
    have hex : e ∈ (dedupeDict cs).filter (fun e => e.1 == k) :=
      List.mem_filter.mpr ⟨he, by simp [he1]⟩
    have hkx : (k, t, k) ∈ (dedupeDict cs).filter (fun e => e.1 == k) :=
      List.mem_filter.mpr ⟨hmem, by simp⟩
    rw [hx, List.mem_singleton] at hex hkx
    rw [hex, ← hkx] at *
    rw [hlk]

/-- Witness for C1: two candidates with the same canonical URL
`https://a/x.jpg`; the video kind from the later candidate survives. -/
theorem dedupe_last_write_wins_witness :
    ((dedupe [(MediaType.image, "https://a/x.jpg?q=1"), (MediaType.video, "https://a/x.jpg?q=2")]).filter
      (fun it => it.2 == "https://a/x.jpg")).length = 1 ∧
    ∀ it ∈ dedupe [(MediaType.image, "https://a/x.jpg?q=1"), (MediaType.video, "https://a/x.jpg?q=2")],
      it.2 = "https://a/x.jpg" →
        lastKind [(MediaType.image, "https://a/x.jpg?q=1"), (MediaType.video, "https://a/x.jpg?q=2")]
          "https://a/x.jpg" = some it.1 :=
  dedupe_last_write_wins
    [(MediaType.image, "https://a/x.jpg?q=1"), (MediaType.video, "https://a/x.jpg?q=2")]
    "https://a/x.jpg" (by decide)

/-- C4: collision resolution probes `name`, `name_1`, `name_2`, ... and uses
the first free path; with exactly the `N` files `photo.jpg`, `photo_1.jpg`,
..., `photo_\x7bN-1\x7d.jpg` pre-existing, the new download deriving
`photo.jpg` is saved as `photo_\x7bN\x7d.jpg`. -/
theorem collision_resolution_first_free (fs : List String) (f : String) (m N : Nat)
    (hin : ∀ k, k < m → probe f k ∈ fs) (hfree : probe f m ∉ fs) :
    resolveCollision fs f = probe f m ∧
    resolveCollision ((List.range N).map (probe "photo.jpg")) "photo.jpg"
      = probe "photo.jpg" N ∧
    probe "photo.jpg" (N + 1) = "photo_" ++ Nat.repr (N + 1) ++ ".jpg" := by
  have hscen : resolveCollision ((List.range N).map (probe "photo.jpg")) "photo.jpg"
      = probe "photo.jpg" N := by
    apply resolveCollision_eq_probe
    · intro k hk
      exact List.mem_map.mpr ⟨k, List.mem_range.mpr hk, rfl⟩
    · intro hmem
      rcases List.mem_map.mp hmem with ⟨j, hj, he⟩
      have := probe_injective "photo.jpg" he
      rw [this] at hj
      exact absurd (List.mem_range.mp hj) (lt_irrefl N)
  refine ⟨resolveCollision_eq_probe fs f m hin hfree, hscen, ?_⟩
  show (if N + 1 = 0 then _ else _) = _
  rw [if_neg (Nat.succ_ne_zero N)]
  have h1 : (splitext "photo.jpg").1 = "photo" := by decide
  have h2 : (splitext "photo.jpg").2 = ".jpg" := by decide
  rw [h1, h2]
  have h3 : ("photo" : String) ++ "_" = "photo_" := by decide
  rw [h3]

/-- Witness for C4: with `photo.jpg` and `photo_1.jpg` present, the next
`photo.jpg` resolves to `photo_2.jpg`. -/
theorem collision_resolution_first_free_witness :
    resolveCollision ["photo.jpg", "photo_1.jpg"] "photo.jpg" = probe "photo.jpg" 2 ∧
    resolveCollision ((List.range 2).map (probe "photo.jpg")) "photo.jpg"
      = probe "photo.jpg" 2 ∧
    probe "photo.jpg" (2 + 1) = "photo_" ++ Nat.repr (2 + 1) ++ ".jpg" :=
  collision_resolution_first_free ["photo.jpg", "photo_1.jpg"] "photo.jpg" 2 2
    (by decide) (by decide)

/-! ## Download loop lemmas -/

lemma foldl_dlStep_spec (env : Nat → String → Except String Unit) (total : Nat)
    (l : List (Nat × MediaType × String)) :
    ∀ st : LoopState,
      (l.foldl (dlStep env total) st).attempts
          = st.attempts ++ l.map (fun p => (p.1, p.2.2)) ∧
      (l.foldl (dlStep env total) st).log
          = st.log ++ l.map (fun p =>
              match env p.1 p.2.2 with
              | .ok _ => successLine p.2.1 (deriveFilename p.2.1 p.1 p.2.2) p.1 total
              | .error e => failLine p.2.2 e) := by
  induction l with
  | nil => intro st; simp
  | cons p l ih =>
    intro st
    obtain ⟨i, t, u⟩ := p
    simp only [List.foldl_cons]
    constructor
    · rw [(ih _).1]
      cases henv : env i u <;> simp [dlStep, henv]
    · rw [(ih _).2]
      cases henv : env i u <;> simp [dlStep, henv]

/-- C2: every item is attempted exactly once in order, regardless of earlier
failures; each item yields one log line (success or caught failure); and
after the loop the completion message is the last log line unconditionally. -/
theorem download_failures_isolated (env : Nat → String → Except String Unit)
    (items : List (MediaType × String)) (fs0 : List String)
    (jsonLoads : String → Option Json) (pageUrl : String) (doc : ElementList)
    (fsr : List String)
    (hne : dedupe (extract jsonLoads doc pageUrl) ≠ []) :
    (downloadLoop env items fs0).attempts = items.enum.map (fun p => (p.1, p.2.2)) ∧
    (downloadLoop env items fs0).log = items.enum.map (fun p =>
        match env p.1 p.2.2 with
        | .ok _ => successLine p.2.1 (deriveFilename p.2.1 p.1 p.2.2) p.1 items.length
        | .error e => failLine p.2.2 e) ∧
    (runPipeline jsonLoads env pageUrl 200 doc fsr).log.getLast? = some doneLine := by
  refine ⟨?_, ?_, ?_⟩
  · have h := (foldl_dlStep_spec env items.length items.enum ⟨fs0, [], []⟩).1
    simpa [downloadLoop] using h
  · have h := (foldl_dlStep_spec env items.length items.enum ⟨fs0, [], []⟩).2
    simpa [downloadLoop] using h
  · unfold runPipeline
    rw [if_neg (by decide : ¬ (200 : Nat) ≠ 200)]
    simp only [hne, if_neg, if_false]
    rw [List.getLast?_append]
    rfl

/-- Witness for C2: item 0 fails with a 404, item 1 still downloads, and the
completion message closes the log. -/
theorem download_failures_isolated_witness :
    (downloadLoop (fun i _ => if i = 0 then Except.error "404" else Except.ok ())
        [(MediaType.image, "https://a/1.jpg"), (MediaType.video, "https://a/2.mp4")]
        []).attempts
      = ([(MediaType.image, "https://a/1.jpg"), (MediaType.video, "https://a/2.mp4")].enum.map
          (fun p => (p.1, p.2.2))) ∧
    (downloadLoop (fun i _ => if i = 0 then Except.error "404" else Except.ok ())
        [(MediaType.image, "https://a/1.jpg"), (MediaType.video, "https://a/2.mp4")]
        []).log
      = ([(MediaType.image, "https://a/1.jpg"), (MediaType.video, "https://a/2.mp4")].enum.map
          (fun p =>
            match (fun (i : Nat) (_ : String) =>
                if i = 0 then Except.error "404" else Except.ok ()) p.1 p.2.2 with
            | .ok _ => successLine p.2.1 (deriveFilename p.2.1 p.1 p.2.2) p.1
                [(MediaType.image, "https://a/1.jpg"), (MediaType.video, "https://a/2.mp4")].length
            | .error e => failLine p.2.2 e)) ∧
    (runPipeline (fun _ => none)
        (fun i _ => if i = 0 then Except.error "404" else Except.ok ())
        "https://www.pinterest.com/pin/1/" 200
        (ElementList.ofList [Element.mk "img" [("src", "https://a/x.jpg")] .nil none]) []).log.getLast?
      = some doneLine :=
  download_failures_isolated
    (fun i _ => if i = 0 then Except.error "404" else Except.ok ())
    [(MediaType.image, "https://a/1.jpg"), (MediaType.video, "https://a/2.mp4")] []
    (fun _ => none) "https://www.pinterest.com/pin/1/"
    (ElementList.ofList [Element.mk "img" [("src", "https://a/x.jpg")] .nil none]) []
    (by decide)

/-- C9: if the four strategies extract zero candidates, the pipeline reports
"no media found" and performs zero download attempts, as a normal halt. -/
theorem no_media_reports_and_halts (jsonLoads : String → Option Json)
    (env : Nat → String → Except String Unit) (pageUrl : String)
    (doc : ElementList) (fs0 : List String)
    (h : extract jsonLoads doc pageUrl = []) :
    (runPipeline jsonLoads env pageUrl 200 doc fs0).log
      = [accessLine pageUrl, noMediaLine] ∧
    (runPipeline jsonLoads env pageUrl 200 doc fs0).attempts = [] := by
  have hd : dedupe (extract jsonLoads doc pageUrl) = [] := by
    rw [h]
    rfl
  unfold runPipeline
  rw [if_neg (by decide : ¬ (200 : Nat) ≠ 200)]
  simp [hd]

/-- Witness for C9: a document with no media elements. -/
theorem no_media_reports_and_halts_witness :
    (runPipeline (fun _ => none) (fun _ _ => Except.ok ())
        "https://www.pinterest.com/pin/1/" 200
        (ElementList.ofList [Element.mk "p" [] .nil (some "hello")]) []).log
      = [accessLine "https://www.pinterest.com/pin/1/", noMediaLine] ∧
    (runPipeline (fun _ => none) (fun _ _ => Except.ok ())
        "https://www.pinterest.com/pin/1/" 200
        (ElementList.ofList [Element.mk "p" [] .nil (some "hello")]) []).attempts = [] :=
  no_media_reports_and_halts (fun _ => none) (fun _ _ => Except.ok ())
    "https://www.pinterest.com/pin/1/" (ElementList.ofList [Element.mk "p" [] .nil (some "hello")]) []
    (by decide)

/-- C10: a non-200 page fetch is reported once and halts the pipeline with no
extraction and no download attempt. -/
theorem bad_status_halts (jsonLoads : String → Option Json)
    (env : Nat → String → Except String Unit) (pageUrl : String) (status : Nat)
    (doc : ElementList) (fs0 : List String) (h : status ≠ 200) :
    (runPipeline jsonLoads env pageUrl status doc fs0).log
      = [accessLine pageUrl, fetchFailLine] ∧
    (runPipeline jsonLoads env pageUrl status doc fs0).attempts = [] := by
  unfold runPipeline
  rw [if_pos h]
  exact ⟨rfl, rfl⟩

/-- Witness for C10: HTTP 404. -/
theorem bad_status_halts_witness :
    (runPipeline (fun _ => none) (fun _ _ => Except.ok ())
        "https://www.pinterest.com/pin/1/" 404
        (ElementList.ofList [Element.mk "img" [("src", "https://a/x.jpg")] .nil none]) []).log
      = [accessLine "https://www.pinterest.com/pin/1/", fetchFailLine] ∧
    (runPipeline (fun _ => none) (fun _ _ => Except.ok ())
        "https://www.pinterest.com/pin/1/" 404
        (ElementList.ofList [Element.mk "img" [("src", "https://a/x.jpg")] .nil none]) []).attempts = [] :=
  bad_status_halts (fun _ => none) (fun _ _ => Except.ok ())
    "https://www.pinterest.com/pin/1/" 404
    (ElementList.ofList [Element.mk "img" [("src", "https://a/x.jpg")] .nil none]) [] (by decide)

/-! ## Absoluteness of `urljoin` results -/

lemma withQuery_data (p : UrlParts) (v : String) :
    ∃ t, (withQuery p v).data = v.data ++ t := by
  unfold withQuery
  by_cases h : p.query ≠ ""
  · rw [if_pos h]
    have hq : ("?" : String).data = ['?'] := rfl
    exact ⟨'?' :: p.query.data, by simp [String.data_append, hq]⟩
  · rw [if_neg h]
    exact ⟨[], by simp⟩

lemma withFragment_data (p : UrlParts) (v : String) :
    ∃ t, (withFragment p v).data = v.data ++ t := by
  unfold withFragment
  by_cases h : p.fragment ≠ ""
  · rw [if_pos h]
    have hq : ("#" : String).data = ['#'] := rfl
    exact ⟨'#' :: p.fragment.data, by simp [String.data_append, hq]⟩
  · rw [if_neg h]
    exact ⟨[], by simp⟩

lemma withScheme_data (p : UrlParts) (v : String) (h : p.scheme ≠ "") :
    (withScheme p v).data = p.scheme.data ++ ':' :: v.data := by
  unfold withScheme
  rw [if_pos h]
  have hc : (":" : String).data = [':'] := rfl
  simp [String.data_append, hc]

lemma urlunsplit_data (p : UrlParts) (h : p.scheme ≠ "") :
    ∃ t, (urlunsplit p).data = p.scheme.data ++ ':' :: t := by
  unfold urlunsplit
  obtain ⟨t1, h1⟩ := withQuery_data p (withScheme p (unsplitPathNetloc p))
  obtain ⟨t2, h2⟩ := withFragment_data p (withQuery p (withScheme p (unsplitPathNetloc p)))
  refine ⟨(unsplitPathNetloc p).data ++ t1 ++ t2, ?_⟩
  rw [h2, h1, withScheme_data p _ h]
  simp [List.append_assoc]

lemma urlsplit_scheme_of (s sch : String) (tail : List Char)
    (hd : s.data = sch.data ++ ':' :: tail)
    (hsch : sch = "http" ∨ sch = "https") :
    (urlsplit s).scheme = sch := by
  have hs : s = String.mk (sch.data ++ ':' :: tail) :=
    (strMk_data s).symm.trans (congrArg String.mk hd)
  rcases hsch with rfl | rfl <;> rw [hs] <;> rfl

lemma urlsplit_urlunsplit_scheme (p : UrlParts)
    (h : p.scheme = "http" ∨ p.scheme = "https") :
    (urlsplit (urlunsplit p)).scheme = p.scheme := by
  have hne : p.scheme ≠ "" := by rcases h with h | h <;> rw [h] <;> decide
  obtain ⟨t, ht⟩ := urlunsplit_data p hne
  exact urlsplit_scheme_of _ _ _ ht h

lemma urljoinResolve_scheme (b u : UrlParts) (sch : String)
    (h : sch = "http" ∨ sch = "https") :
    (urlsplit (urljoinResolve b u sch)).scheme = sch := by
  unfold urljoinResolve
  by_cases h1 : sch ∈ usesNetloc ∧ u.netloc ≠ ""
  · rw [if_pos h1]
    exact urlsplit_urlunsplit_scheme _ h
  · rw [if_neg h1]
    by_cases h2 : u.path = ""
    · rw [if_pos h2]
      exact urlsplit_urlunsplit_scheme _ h
    · rw [if_neg h2]
      exact urlsplit_urlunsplit_scheme _ h

lemma urljoin_scheme (base u : String)
    (hb : (urlsplit base).scheme = "http" ∨ (urlsplit base).scheme = "https") :
    (urlsplit (urljoin base u)).scheme ≠ "" := by
  have hbne : base ≠ "" := by
    intro h
    rw [h] at hb
    rcases hb with hb | hb <;> exact absurd hb (by decide)
  by_cases hu : u = ""
  · have hj : urljoin base u = base := by
      unfold urljoin
      rw [if_neg hbne, if_pos hu]
    rw [hj]
    rcases hb with hb | hb <;> rw [hb] <;> decide
  · have hj : urljoin base u =
        (if (if (urlsplit u).scheme = "" then (urlsplit base).scheme else (urlsplit u).scheme)
              ≠ (urlsplit base).scheme
            ∨ (if (urlsplit u).scheme = "" then (urlsplit base).scheme else (urlsplit u).scheme)
              ∉ usesRelative
          then u
          else urljoinResolve (urlsplit base) (urlsplit u)
            (if (urlsplit u).scheme = "" then (urlsplit base).scheme else (urlsplit u).scheme)) := by
      unfold urljoin
      rw [if_neg hbne, if_neg hu]
    rw [hj]
    by_cases hus : (urlsplit u).scheme = ""
    · rw [hus, if_pos rfl]
      have hcond : ¬ ((urlsplit base).scheme ≠ (urlsplit base).scheme
          ∨ (urlsplit base).scheme ∉ usesRelative) := by
        rcases hb with hb | hb <;> rw [hb] <;> decide
      rw [if_neg hcond]
      rw [urljoinResolve_scheme _ _ _ hb]
      rcases hb with hb | hb <;> rw [hb] <;> decide
    · rw [if_neg hus]
      by_cases hcond : (urlsplit u).scheme ≠ (urlsplit base).scheme
          ∨ (urlsplit u).scheme ∉ usesRelative
      · rw [if_pos hcond]
        exact hus
      · rw [if_neg hcond]
        push_neg at hcond
        have hsch : (urlsplit u).scheme = "http" ∨ (urlsplit u).scheme = "https" := by
          rw [hcond.1]
          exact hb
        rw [urljoinResolve_scheme _ _ _ hsch]
        rcases hsch with h | h <;> rw [h] <;> decide

/-! ## Provenance of strategy 1-3 candidates -/

lemma imgCandidate_url (p : String) (o : Option String) (c : MediaType × String)
    (h : imgCandidate p o = some c) : ∃ v, c.2 = urljoin p v := by
  cases o with
  | none => cases h
  | some v =>
    simp only [imgCandidate] at h
    by_cases hc : v ≠ "" ∧ imgAccept v
    · rw [if_pos hc] at h
      exact ⟨v, by rw [← Option.some.inj h]⟩
    · rw [if_neg hc] at h
      cases h

lemma videoCandidate_url (p : String) (o : Option String) (c : MediaType × String)
    (h : videoCandidate p o = some c) : ∃ v, c.2 = urljoin p v := by
  cases o with
  | none => cases h
  | some v =>
    simp only [videoCandidate] at h
    by_cases hc : v ≠ "" ∧ videoAccept v
    · rw [if_pos hc] at h
      exact ⟨v, by rw [← Option.some.inj h]⟩
    · rw [if_neg hc] at h
      cases h

lemma divCandidate_url (p : String) (o : Option String) (c : MediaType × String)
    (h : divCandidate p o = some c) : ∃ v, c.2 = urljoin p v := by
  cases o with
  | none => cases h
  | some v =>
    simp only [divCandidate] at h
    by_cases hc : v ≠ ""
    · rw [if_pos hc] at h
      exact ⟨v, by rw [← Option.some.inj h]⟩
    · rw [if_neg hc] at h
      cases h

lemma mem_strategy123 (doc : ElementList) (p : String) (c : MediaType × String)
    (hc : c ∈ extractImgs doc p ++ extractVideos doc p ++ extractVideoDivs doc p) :
    ∃ v, c.2 = urljoin p v := by
  rcases List.mem_append.mp hc with h12 | h3
  · rcases List.mem_append.mp h12 with h1 | h2
    · rcases List.mem_filterMap.mp h1 with ⟨img, _, hf⟩
      exact imgCandidate_url p _ c hf
    · rcases List.mem_filterMap.mp h2 with ⟨vid, _, hf⟩
      exact videoCandidate_url p _ c hf
  · rcases List.mem_filterMap.mp h3 with ⟨d, _, hf⟩
    exact divCandidate_url p _ c hf

/-- C5 counterexample: strategy 4 (JSON-LD) does not resolve its URL against
the page URL. A relative `contentUrl` is emitted verbatim, without a scheme,
and differs from what resolution would have produced. -/
theorem ldjson_url_not_resolved :
    extract
      (fun q => if q = "\x7b\"contentUrl\": \"/videos/v.mp4\"\x7d" then
          some (Json.obj [("contentUrl", Json.str "/videos/v.mp4")]) else none)
      (ElementList.ofList [Element.mk "script" [("type", "application/ld+json")] .nil
        (some "\x7b\"contentUrl\": \"/videos/v.mp4\"\x7d")])
      "https://www.pinterest.com/pin/123/"
      = [(MediaType.video, "/videos/v.mp4")] ∧
    (urlsplit "/videos/v.mp4").scheme = "" ∧
    urljoin "https://www.pinterest.com/pin/123/" "/videos/v.mp4"
      = "https://www.pinterest.com/videos/v.mp4" ∧
    "/videos/v.mp4" ≠ urljoin "https://www.pinterest.com/pin/123/" "/videos/v.mp4" := by
  refine ⟨by decide, by decide, by decide, by decide⟩

/-- C5 (amended): strategies 1-3 resolve their raw URLs with `urljoin`, so
their candidates carry a scheme whenever the page URL is http(s); the spec's
relative-URL example resolves as stated. Strategy 4 is excluded: it emits
`contentUrl` verbatim (see the counterexample). -/
theorem strategies_resolve_absolute (doc : ElementList) (pageUrl : String)
    (c : MediaType × String)
    (hb : (urlsplit pageUrl).scheme = "http" ∨ (urlsplit pageUrl).scheme = "https")
    (hc : c ∈ extractImgs doc pageUrl ++ extractVideos doc pageUrl
      ++ extractVideoDivs doc pageUrl) :
    (urlsplit c.2).scheme ≠ "" ∧
    extractImgs (ElementList.ofList [Element.mk "img" [("src", "/static/img1.png")] .nil none])
        "https://www.pinterest.com/pin/123/"
      = [(MediaType.image, "https://www.pinterest.com/static/img1.png")] := by
  refine ⟨?_, by decide⟩
  obtain ⟨v, hv⟩ := mem_strategy123 doc pageUrl c hc
  rw [hv]
  exact urljoin_scheme pageUrl v hb

/-- Witness for the amended C5. -/
theorem strategies_resolve_absolute_witness :
    (urlsplit ((MediaType.image, "https://www.pinterest.com/static/img1.png") :
        MediaType × String).2).scheme ≠ "" ∧
    extractImgs (ElementList.ofList [Element.mk "img" [("src", "/static/img1.png")] .nil none])
        "https://www.pinterest.com/pin/123/"
      = [(MediaType.image, "https://www.pinterest.com/static/img1.png")] :=
  strategies_resolve_absolute
    (ElementList.ofList [Element.mk "img" [("src", "/static/img1.png")] .nil none])
    "https://www.pinterest.com/pin/123/"
    (MediaType.image, "https://www.pinterest.com/static/img1.png")
    (by decide) (by decide)

/-! ## C6: the downloader fetches the canonical URL -/

lemma mem_dict_source (cs : List (MediaType × String)) :
    ∀ e ∈ dedupeDict cs, ∃ c ∈ cs, e = (canon c.2, c.1, canon c.2) := by
  induction cs using List.reverseRecOn with
  | nil => intro e he; simp [dedupeDict] at he
  | append_singleton cs c ih =>
    intro e he
    rw [dedupeDict_append] at he
    unfold upd at he
    by_cases ha : ((dedupeDict cs).any (fun x => x.1 == canon c.2)) = true
    · rw [if_pos ha] at he
      rcases List.mem_map.mp he with ⟨x, hx, rfl⟩
      cases hxk : x.1 == canon c.2 with
      | true =>
        refine ⟨c, by simp, ?_⟩
        simp [hxk]
      | false =>
        rcases ih x hx with ⟨c', hc', hx'⟩
        exact ⟨c', by simp [hc'], by simp [hxk, hx']⟩
    · rw [if_neg ha] at he
      rcases List.mem_append.mp he with hx | hx
      · rcases ih e hx with ⟨c', hc', hx'⟩
        exact ⟨c', by simp [hc'], hx'⟩
      · simp only [List.mem_singleton] at hx
        exact ⟨c, by simp, hx⟩

/-- C6: every surviving MediaItem stores the canonical, query-stripped URL:
it equals the canonicalization of some extracted candidate, contains no `?`,
and is exactly the URL the download loop requests. -/
theorem downloader_fetches_canonical_url (cs : List (MediaType × String))
    (it : MediaType × String) (env : Nat → String → Except String Unit)
    (fs0 : List String) (hit : it ∈ dedupe cs) :
    (∃ c ∈ cs, it.2 = canon c.2) ∧
    '?' ∉ it.2.data ∧
    (downloadLoop env (dedupe cs) fs0).attempts.map (·.2) = (dedupe cs).map (·.2) := by
  obtain ⟨e, he, rfl⟩ := List.mem_map.mp hit
  obtain ⟨c, hc, rfl⟩ := mem_dict_source cs e he
  refine ⟨⟨c, hc, rfl⟩, ?_, ?_⟩
  · intro hq
    have := List.mem_takeWhile_imp hq
    simp at this
  · have h := (foldl_dlStep_spec env (dedupe cs).length (dedupe cs).enum ⟨fs0, [], []⟩).1
    unfold downloadLoop
    rw [h]
    simp only [List.nil_append, List.map_map]
    have h2 : (dedupe cs).enum.map ((·.2) ∘ fun p => (p.1, p.2.2))
        = ((dedupe cs).enum.map Prod.snd).map (·.2) := by
      rw [List.map_map]
      rfl
    rw [h2, List.enum_map_snd]

/-- Witness for C6: a candidate with a query string; the surviving item holds
the stripped URL. -/
theorem downloader_fetches_canonical_url_witness :
    (∃ c ∈ [(MediaType.image, "https://a/x.jpg?q=1")],
      ((MediaType.image, "https://a/x.jpg") : MediaType × String).2 = canon c.2) ∧
    '?' ∉ ((MediaType.image, "https://a/x.jpg") : MediaType × String).2.data ∧
    (downloadLoop (fun _ _ => Except.ok ())
        (dedupe [(MediaType.image, "https://a/x.jpg?q=1")]) []).attempts.map (·.2)
      = (dedupe [(MediaType.image, "https://a/x.jpg?q=1")]).map (·.2) :=
  downloader_fetches_canonical_url [(MediaType.image, "https://a/x.jpg?q=1")]
    (MediaType.image, "https://a/x.jpg") (fun _ _ => Except.ok ()) [] (by decide)

/-- C3: filename derivation. The final URL path segment is the filename; an
empty or dot-free segment synthesizes `kind_(i+1)` with the kind's default
extension; an incompatible extension is replaced by the default keeping the
base name; a compatible one keeps the segment unchanged. -/
theorem filename_derivation_cases (t : MediaType) (i : Nat) (u : String) :
    (basename (urlsplit u).path = "" ∨ '.' ∉ (basename (urlsplit u).path).data →
      deriveFilename t i u = t.str ++ "_" ++ Nat.repr (i + 1) ++ defaultExt t) ∧
    (¬ (basename (urlsplit u).path = "" ∨ '.' ∉ (basename (urlsplit u).path).data) →
      (lowerStr (splitext (basename (urlsplit u).path)).2 ∉ acceptedExts t →
        deriveFilename t i u
          = (splitext (basename (urlsplit u).path)).1 ++ defaultExt t) ∧
      (lowerStr (splitext (basename (urlsplit u).path)).2 ∈ acceptedExts t →
        deriveFilename t i u = basename (urlsplit u).path)) := by
  constructor
  · intro h
    unfold deriveFilename
    rw [if_pos h]
  · intro h
    constructor
    · intro hext
      unfold deriveFilename
      rw [if_neg h]
      cases t with
      | video =>
        rw [if_pos ⟨rfl, by simpa [acceptedExts] using hext⟩]
        rfl
      | image =>
        rw [if_neg (fun hh => MediaType.noConfusion hh.1),
          if_pos ⟨rfl, by simpa [acceptedExts] using hext⟩]
        rfl
    · intro hext
      unfold deriveFilename
      rw [if_neg h]
      cases t with
      | video =>
        rw [if_neg (fun hh => hh.2 (by simpa [acceptedExts] using hext)),
          if_neg (fun hh => MediaType.noConfusion hh.1)]
      | image =>
        rw [if_neg (fun hh => MediaType.noConfusion hh.1),
          if_neg (fun hh => hh.2 (by simpa [acceptedExts] using hext))]

/-- Witness for C3: one instance of each of the three cases. -/
theorem filename_derivation_cases_witness :
    deriveFilename MediaType.video 4 "https://a/seg/"
      = MediaType.video.str ++ "_" ++ Nat.repr (4 + 1) ++ defaultExt MediaType.video ∧
    deriveFilename MediaType.image 0 "https://a/pic.txt"
      = (splitext (basename (urlsplit "https://a/pic.txt").path)).1
          ++ defaultExt MediaType.image ∧
    deriveFilename MediaType.image 0 "https://a/pic.PNG"
      = basename (urlsplit "https://a/pic.PNG").path :=
  ⟨(filename_derivation_cases MediaType.video 4 "https://a/seg/").1 (by decide),
   ((filename_derivation_cases MediaType.image 0 "https://a/pic.txt").2 (by decide)).1 (by decide),
   ((filename_derivation_cases MediaType.image 0 "https://a/pic.PNG").2 (by decide)).2 (by decide)⟩

/-- C7: image acceptance is decided by case-insensitive substring
containment of one of the five extensions anywhere in the URL, not only as a
suffix: `photo.JPGcache` qualifies although no accepted extension is a
suffix. -/
theorem image_accept_substring (url : String) :
    (imgAccept url = true ↔ ∃ ext ∈ imageExts, ext.data <:+: (lowerStr url).data) ∧
    imgAccept "https://x/photo.JPGcache/v" = true ∧
    (imageExts.all
      (fun ext => !(ext.data.isSuffixOf (lowerStr "https://x/photo.JPGcache/v").data))) = true := by
  refine ⟨?_, by decide, by decide⟩
  unfold imgAccept containsSub
  rw [List.any_eq_true]
  constructor
  · rintro ⟨ext, hm, he⟩
    exact ⟨ext, hm, of_decide_eq_true he⟩
  · rintro ⟨ext, hm, he⟩
    exact ⟨ext, hm, decide_eq_true he⟩

/-- C8: a `<script type="application/ld+json">` whose text parses to an
object with a non-empty string `contentUrl` emits exactly one candidate,
Video iff the lowercased URL contains `.mp4`/`.webm`/`.mov` and Image
otherwise; a parse failure or a non-object value is silently skipped and
extraction continues over the remaining scripts. -/
theorem ldjson_extraction_cases (jsonLoads : String → Option Json)
    (t tfail tobj : String) (fields : List (String × Json)) (s : String) (j : Json)
    (hparse : jsonLoads t = some (Json.obj fields))
    (hurl : objGet fields "contentUrl" = some (Json.str s))
    (hne : s ≠ "")
    (hfail : jsonLoads tfail = none)
    (hobj : jsonLoads tobj = some j)
    (hnotobj : ∀ fs, j ≠ Json.obj fs) :
    extractLdJsonOne jsonLoads
        (Element.mk "script" [("type", "application/ld+json")] .nil (some t))
      = [(classifyUrl s, s)] ∧
    (classifyUrl s = MediaType.video ↔ ∃ ext ∈ videoExts, ext.data <:+: (lowerStr s).data) ∧
    extractLdJsonOne jsonLoads
        (Element.mk "script" [("type", "application/ld+json")] .nil (some tfail)) = [] ∧
    extractLdJsonOne jsonLoads
        (Element.mk "script" [("type", "application/ld+json")] .nil (some tobj)) = [] ∧
    extractLdJson jsonLoads (ElementList.ofList
        [Element.mk "script" [("type", "application/ld+json")] .nil (some tfail),
         Element.mk "script" [("type", "application/ld+json")] .nil (some t)])
      = [(classifyUrl s, s)] := by
  have h1 : extractLdJsonOne jsonLoads
      (Element.mk "script" [("type", "application/ld+json")] .nil (some t))
      = [(classifyUrl s, s)] := by
    simp only [extractLdJsonOne, Element.textContent, hparse, hurl, Json.truthy]
    rw [if_pos (bne_iff_ne.mpr hne)]
  have h3 : extractLdJsonOne jsonLoads
      (Element.mk "script" [("type", "application/ld+json")] .nil (some tfail)) = [] := by
    simp only [extractLdJsonOne, Element.textContent, hfail]
  have h4 : extractLdJsonOne jsonLoads
      (Element.mk "script" [("type", "application/ld+json")] .nil (some tobj)) = [] := by
    simp only [extractLdJsonOne, Element.textContent, hobj]
  have hva : videoAccept s = true ↔ ∃ ext ∈ videoExts, ext.data <:+: (lowerStr s).data := by
    unfold videoAccept containsSub
    rw [List.any_eq_true]
    constructor
    · rintro ⟨e, hm, he⟩
      exact ⟨e, hm, of_decide_eq_true he⟩
    · rintro ⟨e, hm, he⟩
      exact ⟨e, hm, decide_eq_true he⟩
  refine ⟨h1, ?_, h3, h4, ?_⟩
  · constructor
    · intro h
      rw [← hva]
      by_cases hv : videoAccept s = true
      · exact hv
      · unfold classifyUrl at h
        rw [if_neg hv] at h
        cases h
    · intro h
      rw [← hva] at h
      unfold classifyUrl
      rw [if_pos h]
  · have e5 : extractLdJson jsonLoads (ElementList.ofList
        [Element.mk "script" [("type", "application/ld+json")] .nil (some tfail),
         Element.mk "script" [("type", "application/ld+json")] .nil (some t)])
        = extractLdJsonOne jsonLoads
            (Element.mk "script" [("type", "application/ld+json")] .nil (some tfail))
          ++ (extractLdJsonOne jsonLoads
            (Element.mk "script" [("type", "application/ld+json")] .nil (some t)) ++ []) := rfl
    rw [e5, h3, h1]
    rfl

/-- Witness for C8: a concrete parse oracle with one good block, one
malformed block and one non-object block. -/
theorem ldjson_extraction_cases_witness :
    extractLdJsonOne
        (fun q => if q = "\x7b\"contentUrl\": \"https://v/clip.mp4\"\x7d" then
            some (Json.obj [("contentUrl", Json.str "https://v/clip.mp4")])
          else if q = "[1, 2]" then some (Json.arr [Json.num 1, Json.num 2]) else none)
        (Element.mk "script" [("type", "application/ld+json")] .nil
          (some "\x7b\"contentUrl\": \"https://v/clip.mp4\"\x7d"))
      = [(classifyUrl "https://v/clip.mp4", "https://v/clip.mp4")] ∧
    (classifyUrl "https://v/clip.mp4" = MediaType.video
      ↔ ∃ ext ∈ videoExts, ext.data <:+: (lowerStr "https://v/clip.mp4").data) ∧
    extractLdJsonOne
        (fun q => if q = "\x7b\"contentUrl\": \"https://v/clip.mp4\"\x7d" then
            some (Json.obj [("contentUrl", Json.str "https://v/clip.mp4")])
          else if q = "[1, 2]" then some (Json.arr [Json.num 1, Json.num 2]) else none)
        (Element.mk "script" [("type", "application/ld+json")] .nil (some "not json")) = [] ∧
    extractLdJsonOne
        (fun q => if q = "\x7b\"contentUrl\": \"https://v/clip.mp4\"\x7d" then
            some (Json.obj [("contentUrl", Json.str "https://v/clip.mp4")])
          else if q = "[1, 2]" then some (Json.arr [Json.num 1, Json.num 2]) else none)
        (Element.mk "script" [("type", "application/ld+json")] .nil (some "[1, 2]")) = [] ∧
    extractLdJson
        (fun q => if q = "\x7b\"contentUrl\": \"https://v/clip.mp4\"\x7d" then
            some (Json.obj [("contentUrl", Json.str "https://v/clip.mp4")])
          else if q = "[1, 2]" then some (Json.arr [Json.num 1, Json.num 2]) else none)
        (ElementList.ofList
          [Element.mk "script" [("type", "application/ld+json")] .nil (some "not json"),
           Element.mk "script" [("type", "application/ld+json")] .nil
             (some "\x7b\"contentUrl\": \"https://v/clip.mp4\"\x7d")])
      = [(classifyUrl "https://v/clip.mp4", "https://v/clip.mp4")] :=
  ldjson_extraction_cases
    (fun q => if q = "\x7b\"contentUrl\": \"https://v/clip.mp4\"\x7d" then
        some (Json.obj [("contentUrl", Json.str "https://v/clip.mp4")])
      else if q = "[1, 2]" then some (Json.arr [Json.num 1, Json.num 2]) else none)
    "\x7b\"contentUrl\": \"https://v/clip.mp4\"\x7d" "not json" "[1, 2]"
    [("contentUrl", Json.str "https://v/clip.mp4")] "https://v/clip.mp4"
    (Json.arr [Json.num 1, Json.num 2])
    (by rfl) (by rfl) (by decide) (by rfl) (by rfl)
    (fun fs h => Json.noConfusion h)

end Pinterest
